import Mathlib

/-!
Verification of the repetition-detection core of `compare-mt`
(`compare_mt/repetition_utils.py`), shallowly embedded in Lean 4.

Sentences are lists of string tokens; n-grams are the contiguous windows of a
fixed order, represented as lists of tokens (Python tuples).  Python integers
are embedded as `Int` wherever the source computes counts that take part in
subtraction, so non-negativity remains a real property rather than a typing
artifact.
-/

namespace CompareMT

abbrev Token := String

abbrev Tokens := List Token

abbrev Sentences := List Tokens

/-- An n-gram: a tuple of consecutive tokens (Python `tuple` of strings). -/
abbrev NGram := List Token

/-- Modelled from the spec: `ngram_utils.sent_ngrams_list` lives in
`compare_mt/ngram_utils.py`, which is not among the sources here.  Per spec
section 4.1 and section 3, a sentence of length `n` yields the contiguous windows of
length `k` in left-to-right order, `max (n - k + 1) 0` of them; in `Nat`
arithmetic that window count is `n + 1 - k`. -/
def sent_ngrams_list (sentence : Tokens) (ngram_order : Nat) : List NGram :=
  (List.range (sentence.length + 1 - ngram_order)).map
    (fun i => (sentence.drop i).take ngram_order)

/-- Python `collections.Counter(ngrams).items()`: each distinct n-gram paired
with its number of occurrences.  Iteration order of `Counter.items` is
irrelevant downstream (only the sum of the values is used), so the distinct
keys are taken in `List.dedup` order. -/
def counter (ngrams : List NGram) : List (NGram × Nat) :=
  ngrams.dedup.map (fun g => (g, ngrams.count g))

/-- One step of the adjacent-mode loop of `num_repetitions_in_sentence`
(repetition_utils.py lines 186-194): test membership in the lookback buffer,
append the n-gram, and pop the oldest buffer element once the buffer exceeds
`ngram_order` elements. -/
def adjacentStep (ngram_order : Nat) (st : Int × List NGram) (g : NGram) :
    Int × List NGram :=
  let cnt := if g ∈ st.2 then st.1 + 1 else st.1
  let prev := st.2 ++ [g]
  (cnt, if ngram_order < prev.length then prev.tail else prev)

/-- `num_repetitions_in_sentence(sentence, adjacent, ngram_order)`
(repetition_utils.py lines 163-196). -/
def num_repetitions_in_sentence (sentence : Tokens) (adjacent : Bool)
    (ngram_order : Nat) : Int :=
  let ngrams := sent_ngrams_list sentence ngram_order
  if adjacent = false then
    (counter ngrams).foldl (fun acc kv => acc + ((kv.2 : Int) - 1)) 0
  else
    (ngrams.foldl (adjacentStep ngram_order) (0, [])).1

/-- Modelled from the spec: how a missing line produced by
`itertools.zip_longest` padding behaves inside `num_repetitions_in_sentence`
is decided by `ngram_utils.sent_ngrams_list`, which is not among the sources
here.  Spec sections 4.4 and 7 fix the policy: a missing line is treated as an
empty sentence, never a fault. -/
def lineOrEmpty : Option Tokens → Tokens
  | some s => s
  | none => []

/-- `itertools.zip_longest` over three lists, the missing positions filled
with `none` (Python `None`). -/
def zip_longest3 (xs ys zs : List Tokens) :
    List (Option Tokens × Option Tokens × Option Tokens) :=
  (List.range (max xs.length (max ys.length zs.length))).map
    (fun i => (xs[i]?, ys[i]?, zs[i]?))

/-- `repetition_stats_in_corpus(ref, out, src, adjacent, ngram_order,
subtract_legitimate_reps)` (repetition_utils.py lines 48-89). -/
def repetition_stats_in_corpus (ref out : Sentences) (src : Option Sentences)
    (adjacent : Bool) (ngram_order : Nat)
    (subtract_legitimate_reps : Bool) : List Int :=
  let src_lines := src.getD []
  (zip_longest3 out ref src_lines).map (fun t =>
    let out_reps := num_repetitions_in_sentence (lineOrEmpty t.1) adjacent ngram_order
    if subtract_legitimate_reps then
      let ref_reps := num_repetitions_in_sentence (lineOrEmpty t.2.1) adjacent ngram_order
      let src_reps := if src.isNone then 0
        else num_repetitions_in_sentence (lineOrEmpty t.2.2) adjacent ngram_order
      out_reps - max src_reps ref_reps
    else out_reps)

/-- `repetition_stats(ref, outs, src, adjacent, ngram_order,
subtract_legitimate_reps)` (repetition_utils.py lines 15-45): per system, the
sum of the per-line counts. -/
def repetition_stats (ref : Sentences) (outs : List Sentences)
    (src : Option Sentences) (adjacent : Bool) (ngram_order : Nat)
    (subtract_legitimate_reps : Bool) : List Int :=
  outs.map (fun out =>
    (repetition_stats_in_corpus ref out src adjacent ngram_order
      subtract_legitimate_reps).sum)

/-- Insert index `i` into an index list sorted ascending by `counts` value,
before the first index of value ≥ the value at `i`.  Building the sort this
way keeps equal-valued indices in their original ascending order, which is the
order `np.argsort` produces on these inputs. -/
def insertIdx (counts : List Int) (i : Nat) : List Nat → List Nat
  | [] => [i]
  | j :: rest =>
    if counts.getD j 0 < counts.getD i 0 then j :: insertIdx counts i rest
    else i :: j :: rest

/-- Stable insertion sort of an index list by ascending `counts` value. -/
def sortIdx (counts : List Int) : List Nat → List Nat
  | [] => []
  | i :: rest => insertIdx counts i (sortIdx counts rest)

/-- `np.argsort(rep_stats)` (repetition_utils.py line 155): the indices of
`counts` ordered by ascending value, equal values keeping ascending index
order. -/
def argsort (counts : List Int) : List Nat :=
  sortIdx counts (List.range counts.length)

/-- The ranking pipeline of `repetition_examples_from_corpus`
(repetition_utils.py lines 154-160): `np.argsort(...)[::-1][:num_examples]`. -/
def rank (counts : List Int) (limit : Nat) : List Nat :=
  ((argsort counts).reverse).take limit

/-- `repetition_examples_from_corpus(out, ref, src, num_examples, adjacent,
ngram_order, ignore_legitimate_reps)` (repetition_utils.py lines 127-160). -/
def repetition_examples_from_corpus (out ref : Sentences)
    (src : Option Sentences) (num_examples : Nat) (adjacent : Bool)
    (ngram_order : Nat) (ignore_legitimate_reps : Bool) : List Nat :=
  rank (repetition_stats_in_corpus ref out src adjacent ngram_order
    ignore_legitimate_reps) num_examples

/-! ## Characterization of the global (non-adjacent) mode -/

theorem foldl_add_eq_sum (f : NGram × Nat → Int) :
    ∀ (l : List (NGram × Nat)) (a : Int),
      l.foldl (fun acc kv => acc + f kv) a = a + (l.map f).sum
  | [], a => by simp
  | kv :: l, a => by
    simp [foldl_add_eq_sum f l, add_assoc]

theorem num_false_eq_dedup_sum (s : Tokens) (k : Nat) :
    num_repetitions_in_sentence s false k =
      ((sent_ngrams_list s k).dedup.map
        (fun g => (((sent_ngrams_list s k).count g : Int) - 1))).sum := by
  simp only [num_repetitions_in_sentence, if_pos rfl, foldl_add_eq_sum, counter,
    List.map_map, zero_add]
  rfl

theorem toFinset_dedup_list (l : List NGram) : l.dedup.toFinset = l.toFinset := by
  ext a
  simp

theorem num_false_eq_toFinset_sum (s : Tokens) (k : Nat) :
    num_repetitions_in_sentence s false k =
      ∑ g in (sent_ngrams_list s k).toFinset,
        (((sent_ngrams_list s k).count g : Int) - 1) := by
  rw [num_false_eq_dedup_sum, ← List.sum_toFinset _ (List.nodup_dedup _),
    toFinset_dedup_list]

theorem count_instance_eq (g : NGram) : ∀ l : List NGram,
    l.count g = @List.count NGram instBEqOfDecidableEq g l
  | [] => rfl
  | x :: t => by
    by_cases h : x = g <;>
      simp [List.count_cons, count_instance_eq g t, h]

theorem num_false_eq_length_sub_card (s : Tokens) (k : Nat) :
    num_repetitions_in_sentence s false k =
      ((sent_ngrams_list s k).length : Int) -
        ((sent_ngrams_list s k).toFinset.card : Int) := by
  rw [num_false_eq_toFinset_sum, Finset.sum_sub_distrib]
  simp only [← Nat.cast_sum, Finset.sum_const, smul_eq_mul, mul_one]
  simp only [count_instance_eq]
  rw [List.sum_toFinset_count_eq_length (sent_ngrams_list s k)]
  simp [nsmul_eq_mul]

/-! ## The FIFO lookback scan, as the spec words it -/

/-- The adjacent-mode counting procedure exactly as spec section 4.2 words it:
scan the n-grams left to right with a FIFO lookback buffer holding at most the
`k` most recent n-grams; for each n-gram add 1 if it occurs anywhere in the
current buffer, then append it, evicting the oldest element when the buffer
exceeds `k` elements. -/
def fifoLookbackCount (k : Nat) : List NGram → List NGram → Int
  | _, [] => 0
  | buf, g :: gs =>
    (if g ∈ buf then (1 : Int) else 0) +
      fifoLookbackCount k
        (if k < (buf ++ [g]).length then (buf ++ [g]).tail else buf ++ [g]) gs

theorem adjacent_foldl_eq_fifo (k : Nat) :
    ∀ (gs buf : List NGram) (c : Int),
      (gs.foldl (adjacentStep k) (c, buf)).1 = c + fifoLookbackCount k buf gs
  | [], buf, c => by simp [fifoLookbackCount]
  | g :: gs, buf, c => by
    simp only [List.foldl_cons, fifoLookbackCount, adjacentStep]
    rw [adjacent_foldl_eq_fifo k gs]
    by_cases h : g ∈ buf
    · simp only [h, if_true, if_pos]
      ring
    · simp [h]

/-- C1: for every sentence and order `k`, adjacent-mode
`num_repetitions_in_sentence` equals the spec's left-to-right FIFO-lookback
scan of the sentence's contiguous k-grams (buffer of at most the `k` most
recent k-grams, counting a k-gram when it occurs anywhere in the buffer, then
appending with oldest-first eviction); and the bigram example
"This is a is a test !" at order 2 yields exactly 1. -/
theorem num_repetitions_adjacent_eq_fifo_lookback :
    (∀ (s : Tokens) (k : Nat),
        num_repetitions_in_sentence s true k =
          fifoLookbackCount k [] (sent_ngrams_list s k)) ∧
      num_repetitions_in_sentence ["This", "is", "a", "is", "a", "test", "!"]
        true 2 = 1 := by
  refine ⟨fun s k => ?_, by decide⟩
  have h := adjacent_foldl_eq_fifo k (sent_ngrams_list s k) [] 0
  simpa [num_repetitions_in_sentence] using h

/-- C2: for every sentence and order `k`, global-mode
`num_repetitions_in_sentence` equals the sum over all distinct contiguous
k-grams of (frequency − 1); the sentence "a This is a test ! a" at order 1 has
non-adjacent count 2 and adjacent count 0. -/
theorem num_repetitions_global_eq_excess_frequency :
    (∀ (s : Tokens) (k : Nat),
        num_repetitions_in_sentence s false k =
          ∑ g in (sent_ngrams_list s k).toFinset,
            (((sent_ngrams_list s k).count g : Int) - 1)) ∧
      num_repetitions_in_sentence ["a", "This", "is", "a", "test", "!", "a"]
        false 1 = 2 ∧
      num_repetitions_in_sentence ["a", "This", "is", "a", "test", "!", "a"]
        true 1 = 0 :=
  ⟨num_false_eq_toFinset_sum, by decide, by decide⟩

/-! ## Bounds on the two counting modes -/

theorem adjacent_foldl_ge (k : Nat) :
    ∀ (gs buf : List NGram) (c : Int),
      c ≤ (gs.foldl (adjacentStep k) (c, buf)).1
  | [], _, _ => le_refl _
  | g :: gs, buf, c => by
    simp only [List.foldl_cons, adjacentStep]
    refine le_trans ?_ (adjacent_foldl_ge k gs _ _)
    by_cases h : g ∈ buf <;> simp [h]

theorem adjacent_foldl_le_excess (k : Nat) :
    ∀ (gs seen buf : List NGram) (c : Int),
      (∀ g ∈ buf, g ∈ seen) →
      c ≤ (seen.length : Int) - (seen.toFinset.card : Int) →
      (gs.foldl (adjacentStep k) (c, buf)).1 ≤
        (((seen ++ gs).length : Int) - ((seen ++ gs).toFinset.card : Int))
  | [], seen, buf, c, _, hc => by simpa using hc
  | g :: gs, seen, buf, c, hbuf, hc => by
    rw [List.append_cons]
    simp only [List.foldl_cons]
    refine adjacent_foldl_le_excess k gs (seen ++ [g]) _ _ ?_ ?_
    · intro x hx
      have hx2 : x ∈ (if k < (buf ++ [g]).length then (buf ++ [g]).tail
          else buf ++ [g]) := hx
      have hx1 : x ∈ buf ++ [g] := by
        by_cases hk : k < (buf ++ [g]).length
        · rw [if_pos hk] at hx2
          exact (List.tail_sublist (buf ++ [g])).subset hx2
        · rw [if_neg hk] at hx2
          exact hx2
      rcases List.mem_append.mp hx1 with h | h
      · exact List.mem_append.mpr (Or.inl (hbuf x h))
      · exact List.mem_append.mpr (Or.inr h)
    · show (if g ∈ buf then c + 1 else c : Int) ≤
        (((seen ++ [g]).length : Int) - ((seen ++ [g]).toFinset.card : Int))
      have he : (seen ++ [g]).toFinset = insert g seen.toFinset := by
        rw [List.toFinset_append]
        ext a
        simp [or_comm]
      have hcard2 : ((seen ++ [g]).toFinset.card : Int) ≤
          (seen.toFinset.card : Int) + 1 := by
        rw [he]
        exact_mod_cast Finset.card_insert_le g seen.toFinset
      have hlen : ((seen ++ [g]).length : Int) = (seen.length : Int) + 1 := by
        simp
      by_cases h : g ∈ buf
      · have hins : (seen ++ [g]).toFinset = seen.toFinset := by
          rw [he]
          exact Finset.insert_eq_self.mpr (List.mem_toFinset.mpr (hbuf g h))
        rw [if_pos h, hlen, hins]
        linarith
      · rw [if_neg h, hlen]
        linarith

/-- Adjacent-mode counts never exceed global-mode counts: every occurrence
counted inside the lookback buffer is a non-first occurrence of its n-gram. -/
theorem adjacent_le_global (s : Tokens) (k : Nat) :
    num_repetitions_in_sentence s true k ≤
      num_repetitions_in_sentence s false k := by
  rw [num_false_eq_length_sub_card]
  have h := adjacent_foldl_le_excess k (sent_ngrams_list s k) [] [] 0
    (by intro g hg; cases hg) (by simp)
  simpa [num_repetitions_in_sentence] using h

/-- C9: for every sentence and order, the adjacent-mode count is at most the
global (non-adjacent) count. -/
theorem num_repetitions_adjacent_le_global_count (s : Tokens) (k : Nat) :
    num_repetitions_in_sentence s true k ≤
      num_repetitions_in_sentence s false k :=
  adjacent_le_global s k

/-- C8: unadjusted per-sentence counts are non-negative in both modes, and a
sentence whose n-grams of the given order are pairwise distinct counts 0 in
both modes. -/
theorem num_repetitions_nonneg_and_zero_without_repeats (s : Tokens)
    (adj : Bool) (k : Nat) :
    0 ≤ num_repetitions_in_sentence s adj k ∧
      ((sent_ngrams_list s k).Nodup → num_repetitions_in_sentence s adj k = 0) := by
  have hglobal0 : 0 ≤ num_repetitions_in_sentence s false k := by
    rw [num_false_eq_length_sub_card]
    have h := List.toFinset_card_le (l := sent_ngrams_list s k)
    simp only [sub_nonneg]
    exact_mod_cast h
  have hnonneg : 0 ≤ num_repetitions_in_sentence s adj k := by
    cases adj
    · exact hglobal0
    · simpa [num_repetitions_in_sentence] using
        adjacent_foldl_ge k (sent_ngrams_list s k) [] 0
  refine ⟨hnonneg, fun hnd => ?_⟩
  have hglobal : num_repetitions_in_sentence s false k = 0 := by
    rw [num_false_eq_length_sub_card, List.toFinset_card_of_nodup hnd]
    ring
  cases adj
  · exact hglobal
  · exact le_antisymm (hglobal ▸ adjacent_le_global s k) hnonneg

/-- Witness for C8 at a concrete repetition-free input. -/
theorem num_repetitions_nonneg_witness :
    0 ≤ num_repetitions_in_sentence ["x", "y"] true 1 ∧
      num_repetitions_in_sentence ["x", "y"] true 1 = 0 :=
  ⟨(num_repetitions_nonneg_and_zero_without_repeats ["x", "y"] true 1).1,
    (num_repetitions_nonneg_and_zero_without_repeats ["x", "y"] true 1).2
      (by decide)⟩

/-! ## Per-line view of the corpus aggregator -/

/-- Number of positions visited by `zip_longest` in
`repetition_stats_in_corpus`: the length of the longest of the three
corpora. -/
def numLines (out ref : Sentences) (src : Option Sentences) : Nat :=
  max out.length (max ref.length (src.getD []).length)

/-- The per-position computation of `repetition_stats_in_corpus`, indexed
directly by position. -/
def perLineStat (ref out : Sentences) (src : Option Sentences)
    (adjacent : Bool) (ngram_order : Nat) (subtract_legitimate_reps : Bool)
    (i : Nat) : Int :=
  let out_reps := num_repetitions_in_sentence (lineOrEmpty (out[i]?)) adjacent ngram_order
  if subtract_legitimate_reps then
    let ref_reps := num_repetitions_in_sentence (lineOrEmpty (ref[i]?)) adjacent ngram_order
    let src_reps := if src.isNone then 0
      else num_repetitions_in_sentence (lineOrEmpty ((src.getD [])[i]?)) adjacent ngram_order
    out_reps - max src_reps ref_reps
  else out_reps

theorem stats_in_corpus_eq_map (ref out : Sentences) (src : Option Sentences)
    (adj : Bool) (k : Nat) (sub : Bool) :
    repetition_stats_in_corpus ref out src adj k sub =
      (List.range (numLines out ref src)).map
        (perLineStat ref out src adj k sub) := by
  rw [repetition_stats_in_corpus, zip_longest3, List.map_map]
  rfl

/-- C3: with `subtract_legitimate_reps` enabled, every aligned position's
per-line result equals `out_reps - max ref_reps src_reps`, where all three
counts use the same `(adjacent, order)` configuration and `src_reps` is 0 when
no source corpus is supplied; the signed difference is never clamped at
zero. -/
theorem stats_in_corpus_subtract_formula (ref out : Sentences)
    (src : Option Sentences) (adj : Bool) (k : Nat) (i : Nat)
    (h : i < numLines out ref src) :
    (repetition_stats_in_corpus ref out src adj k true).getD i 0 =
      num_repetitions_in_sentence (lineOrEmpty (out[i]?)) adj k -
        max (num_repetitions_in_sentence (lineOrEmpty (ref[i]?)) adj k)
          (match src with
           | none => 0
           | some s => num_repetitions_in_sentence (lineOrEmpty (s[i]?)) adj k) := by
  rw [stats_in_corpus_eq_map]
  rw [List.getD_eq_getElem?_getD, List.getElem?_map, List.getElem?_range h]
  cases src
  · simp [perLineStat, max_comm]
  · simp [perLineStat, max_comm]

/-- Witness for C3: an under-repeating output line yields the negative
adjusted value −1. -/
theorem stats_in_corpus_subtract_formula_witness :
    (repetition_stats_in_corpus [["a", "a"]] [["b"]] none true 1 true).getD 0 0
      = -1 := by
  rw [stats_in_corpus_subtract_formula [["a", "a"]] [["b"]] none true 1 0
    (by decide)]
  decide

/-- C7: each per-system entry of `repetition_stats` equals the sum of that
system's per-line sequence from `repetition_stats_in_corpus` on the same
inputs, and the output has one entry per system. -/
theorem stats_total_eq_sum_per_line (ref : Sentences) (outs : List Sentences)
    (src : Option Sentences) (adj : Bool) (k : Nat) (sub : Bool) (i : Nat)
    (h : i < outs.length) :
    (repetition_stats ref outs src adj k sub).getD i 0 =
        (repetition_stats_in_corpus ref (outs.getD i []) src adj k sub).sum ∧
      (repetition_stats ref outs src adj k sub).length = outs.length := by
  constructor
  · rw [repetition_stats]
    simp [List.getElem?_eq_getElem h, List.getD_eq_getElem?_getD]
  · simp [repetition_stats]

/-- Witness for C7 at a concrete corpus. -/
theorem stats_total_eq_sum_per_line_witness :
    (repetition_stats [] [[["a", "a"]]] none true 1 false).getD 0 0 =
      (repetition_stats_in_corpus [] [["a", "a"]] none true 1 false).sum := by
  simpa using
    (stats_total_eq_sum_per_line [] [[["a", "a"]]] none true 1 false 0
      (by decide)).1

/-! ## Length-mismatch policy (padding with empty sentences) -/

/-- Pad a corpus with empty sentences up to length `n`. -/
def padTo (n : Nat) (cs : Sentences) : Sentences :=
  cs ++ List.replicate (n - cs.length) []

theorem padTo_length (n : Nat) (cs : Sentences) (hc : cs.length ≤ n) :
    (padTo n cs).length = n := by
  simp only [padTo, List.length_append, List.length_replicate]
  omega

theorem lineOrEmpty_padTo (cs : Sentences) (n i : Nat) (hc : cs.length ≤ n)
    (hi : i < n) : lineOrEmpty ((padTo n cs)[i]?) = lineOrEmpty (cs[i]?) := by
  by_cases h : i < cs.length
  · rw [padTo, List.getElem?_append_left h]
  · have hlen : cs.length ≤ i := le_of_not_lt h
    have hlt : i - cs.length < n - cs.length := by omega
    rw [padTo, List.getElem?_append_right hlen,
      List.getElem?_replicate_of_lt hlt, List.getElem?_eq_none hlen]
    rfl

/-- C6: the aggregator visits exactly the positions of the longest corpus,
and its output is unchanged when every corpus is explicitly padded with empty
sentences to that common length — a missing line at an out-of-range position
behaves exactly as an empty sentence (also as the missing baseline under
`subtract_legitimate_reps`), and a length mismatch is never a fault. -/
theorem stats_in_corpus_length_mismatch_policy (ref out : Sentences)
    (src : Option Sentences) (adj : Bool) (k : Nat) (sub : Bool) :
    (repetition_stats_in_corpus ref out src adj k sub).length =
        numLines out ref src ∧
      repetition_stats_in_corpus ref out src adj k sub =
        repetition_stats_in_corpus (padTo (numLines out ref src) ref)
          (padTo (numLines out ref src) out)
          (Option.map (padTo (numLines out ref src)) src) adj k sub := by
  have hN : ∀ n, out.length ≤ n → ref.length ≤ n →
      (src.getD []).length ≤ n →
      numLines (padTo n out) (padTo n ref) (Option.map (padTo n) src) = n := by
    intro n h1 h2 h3
    cases src with
    | none =>
      simp [numLines, padTo_length _ _ h1, padTo_length _ _ h2]
    | some s =>
      simp [numLines, padTo_length _ _ h1, padTo_length _ _ h2,
        padTo_length _ _ (by simpa using h3)]
  have hpoint : ∀ n i, out.length ≤ n → ref.length ≤ n →
      (src.getD []).length ≤ n → i < n →
      perLineStat (padTo n ref) (padTo n out) (Option.map (padTo n) src)
          adj k sub i =
        perLineStat ref out src adj k sub i := by
    intro n i h1 h2 h3 hi
    cases src with
    | none =>
      simp only [perLineStat, Option.map_none', Option.isNone_none,
        lineOrEmpty_padTo out n i h1 hi, lineOrEmpty_padTo ref n i h2 hi]
    | some s =>
      simp only [perLineStat, Option.map_some', Option.isNone_some,
        Option.getD_some, lineOrEmpty_padTo out n i h1 hi,
        lineOrEmpty_padTo ref n i h2 hi,
        lineOrEmpty_padTo s n i (by simpa using h3) hi]
  have hout : out.length ≤ numLines out ref src := le_max_left _ _
  have href : ref.length ≤ numLines out ref src :=
    le_trans (le_max_left _ _) (le_max_right _ _)
  have hsrc : (src.getD []).length ≤ numLines out ref src :=
    le_trans (le_max_right _ _) (le_max_right _ _)
  constructor
  · rw [stats_in_corpus_eq_map]
    simp
  · rw [stats_in_corpus_eq_map ref out, stats_in_corpus_eq_map,
      hN _ hout href hsrc]
    apply List.map_congr_left
    intro i hi
    exact (hpoint _ i hout href hsrc (List.mem_range.mp hi)).symm

/-! ## Behavior at ngram order zero -/

theorem adjacent_order0_foldl : ∀ (gs : List NGram) (c : Int),
    gs.foldl (adjacentStep 0) (c, []) = (c, [])
  | [], _ => rfl
  | g :: gs, c => by
    have hstep : adjacentStep 0 (c, ([] : List NGram)) g = (c, []) := by
      simp [adjacentStep]
    rw [List.foldl_cons, hstep, adjacent_order0_foldl gs c]

theorem sent_ngrams_list_zero (s : Tokens) :
    sent_ngrams_list s 0 = List.replicate (s.length + 1) [] := by
  rw [sent_ngrams_list]
  simp [List.map_const']

theorem num_false_zero (s : Tokens) :
    num_repetitions_in_sentence s false 0 = (s.length : Int) := by
  rw [num_false_eq_length_sub_card, sent_ngrams_list_zero,
    List.toFinset_replicate_of_ne_zero (Nat.succ_ne_zero _)]
  simp

/-- C5 (amended): no precondition check rejects a non-positive
`ngram_order`; at order 0 counting proceeds and silently returns a value — 0
in adjacent mode, the sentence length in global mode. -/
theorem num_repetitions_order_zero_silent (s : Tokens) :
    num_repetitions_in_sentence s true 0 = 0 ∧
      num_repetitions_in_sentence s false 0 = (s.length : Int) := by
  refine ⟨?_, num_false_zero s⟩
  have h := adjacent_order0_foldl (sent_ngrams_list s 0) 0
  simp [num_repetitions_in_sentence, h]

/-- C5 counterexample: at `ngram_order = 0` the counter silently returns
the count 2 for the two-token sentence ["a", "b"] in global mode instead of
rejecting the configuration — no error path exists in the code. -/
theorem num_repetitions_order_zero_counterexample :
    num_repetitions_in_sentence ["a", "b"] false 0 = 2 := by decide

/-! ## Properties of the ranking pipeline -/

/-- The order `np.argsort` establishes among positions of `counts`:
ascending value, equal values in ascending index order. -/
def argRel (counts : List Int) (i j : Nat) : Prop :=
  counts.getD i 0 < counts.getD j 0 ∨
    (counts.getD i 0 = counts.getD j 0 ∧ i < j)

theorem insertIdx_perm (counts : List Int) (i : Nat) :
    ∀ l : List Nat, List.Perm (insertIdx counts i l) (i :: l)
  | [] => List.Perm.refl _
  | j :: rest => by
    rw [insertIdx]
    by_cases h : counts.getD j 0 < counts.getD i 0
    · rw [if_pos h]
      exact ((insertIdx_perm counts i rest).cons j).trans
        (List.Perm.swap i j rest)
    · rw [if_neg h]

theorem insertIdx_pairwise (counts : List Int) (i : Nat) :
    ∀ l : List Nat, l.Pairwise (argRel counts) → (∀ j ∈ l, i < j) →
      (insertIdx counts i l).Pairwise (argRel counts)
  | [], _, _ => List.pairwise_singleton _ _
  | j :: rest, hp, hlt => by
    rcases List.pairwise_cons.mp hp with ⟨hjrest, hprest⟩
    rw [insertIdx]
    by_cases h : counts.getD j 0 < counts.getD i 0
    · rw [if_pos h]
      refine List.pairwise_cons.mpr
        ⟨?_, insertIdx_pairwise counts i rest hprest
          (fun x hx => hlt x (List.mem_cons_of_mem j hx))⟩
      intro x hx
      rcases List.mem_cons.mp ((insertIdx_perm counts i rest).mem_iff.mp hx)
        with rfl | hx1
      · exact Or.inl h
      · exact hjrest x hx1
    · rw [if_neg h]
      have hle : counts.getD i 0 ≤ counts.getD j 0 := le_of_not_lt h
      refine List.pairwise_cons.mpr ⟨?_, hp⟩
      intro x hx
      rcases List.mem_cons.mp hx with rfl | hx1
      · rcases hle.lt_or_eq with h3 | h3
        · exact Or.inl h3
        · exact Or.inr ⟨h3, hlt x (List.mem_cons_self x rest)⟩
      · have hix : i < x := hlt x (List.mem_cons_of_mem j hx1)
        rcases hjrest x hx1 with h1 | ⟨h1, _⟩
        · exact Or.inl (lt_of_le_of_lt hle h1)
        · rcases hle.lt_or_eq with h3 | h3
          · exact Or.inl (h1 ▸ h3)
          · exact Or.inr ⟨h3.trans h1, hix⟩

theorem sortIdx_perm (counts : List Int) :
    ∀ l : List Nat, List.Perm (sortIdx counts l) l
  | [] => List.Perm.refl _
  | i :: rest =>
    (insertIdx_perm counts i (sortIdx counts rest)).trans
      ((sortIdx_perm counts rest).cons i)

theorem sortIdx_pairwise (counts : List Int) :
    ∀ l : List Nat, l.Pairwise (· < ·) →
      (sortIdx counts l).Pairwise (argRel counts)
  | [], _ => List.Pairwise.nil
  | i :: rest, hp => by
    rcases List.pairwise_cons.mp hp with ⟨hirest, hprest⟩
    rw [sortIdx]
    refine insertIdx_pairwise counts i (sortIdx counts rest)
      (sortIdx_pairwise counts rest hprest) ?_
    intro x hx
    exact hirest x ((sortIdx_perm counts rest).mem_iff.mp hx)

theorem argsort_perm (counts : List Int) :
    List.Perm (argsort counts) (List.range counts.length) :=
  sortIdx_perm counts _

theorem argsort_pairwise (counts : List Int) :
    (argsort counts).Pairwise (argRel counts) :=
  sortIdx_pairwise counts _ (List.pairwise_lt_range _)

theorem rank_pairwise_flip (counts : List Int) (limit : Nat) :
    (rank counts limit).Pairwise (fun a b => argRel counts b a) :=
  List.Pairwise.sublist (List.take_sublist _ _)
    (List.pairwise_reverse.mpr (argsort_pairwise counts))

/-- The tie-breaking rule the spec claims: among positions with equal counts,
the lower original index precedes the higher one in the returned ranking. -/
def tiesAscending (counts : List Int) (res : List Nat) : Prop :=
  ∀ p q, p < q → q < res.length →
    counts.getD (res.getD p 0) 0 = counts.getD (res.getD q 0) 0 →
    res.getD p 0 < res.getD q 0

/-- C4 counterexample: for the tied per-line counts `[5, 5]` with limit 2 the
code returns `[1, 0]` — the higher original index precedes the lower one, so
the claimed ascending-index tie-break is false. -/
theorem rank_ties_counterexample :
    rank [(5 : Int), 5] 2 = [1, 0] ∧
      ¬ tiesAscending [(5 : Int), 5] (rank [(5 : Int), 5] 2) := by
  refine ⟨by decide, fun h => ?_⟩
  have h01 := h 0 1 (by decide) (by decide) (by decide)
  exact absurd h01 (by decide)

/-- C4 (amended): the ranker returns at most `limit` indices ordered by
descending count, equal counts appearing in descending original-index order
(the stable ascending argsort is reversed), and per-line counts
`[1, 7, 0, 3]` with limit 2 yield `[1, 3]`. -/
theorem rank_descending_with_descending_ties (counts : List Int)
    (limit : Nat) :
    (rank counts limit).length ≤ limit ∧
      (rank counts limit).Pairwise (fun a b =>
        counts.getD b 0 < counts.getD a 0 ∨
          (counts.getD b 0 = counts.getD a 0 ∧ b < a)) ∧
      rank [(1 : Int), 7, 0, 3] 2 = [1, 3] := by
  refine ⟨?_, rank_pairwise_flip counts limit, by decide⟩
  rw [rank, List.length_take]
  exact Nat.min_le_left _ _

/-- C10: the ranker returns exactly `min m n` pairwise-distinct indices, each
a valid position of the per-line count list, and
`repetition_examples_from_corpus` is exactly this ranking applied to its
per-line statistics. -/
theorem rank_length_distinct_bounds (counts : List Int) (m : Nat) :
    (rank counts m).length = min m counts.length ∧
      (rank counts m).Nodup ∧
      (∀ i ∈ rank counts m, i < counts.length) ∧
      (∀ (out ref : Sentences) (src : Option Sentences) (adj : Bool)
        (k : Nat) (ig : Bool),
          repetition_examples_from_corpus out ref src m adj k ig =
            rank (repetition_stats_in_corpus ref out src adj k ig) m) := by
  have hperm := argsort_perm counts
  have hlen : (argsort counts).length = counts.length :=
    hperm.length_eq.trans (List.length_range _)
  refine ⟨?_, ?_, ?_, fun out ref src adj k ig => rfl⟩
  · rw [rank, List.length_take, List.length_reverse, hlen]
  · exact (List.take_sublist _ _).nodup
      (List.nodup_reverse.mpr (hperm.nodup_iff.mpr (List.nodup_range _)))
  · intro i hi
    have h1 : i ∈ (argsort counts).reverse := List.mem_of_mem_take hi
    have h2 : i ∈ List.range counts.length :=
      hperm.mem_iff.mp (List.mem_reverse.mp h1)
    exact List.mem_range.mp h2

example : num_repetitions_in_sentence ["This", "is", "a", "test", "!"] true 1 = 0 := by decide

example : num_repetitions_in_sentence ["This", "is", "a", "a", "a", "test", "!"] true 1 = 2 := by
  decide

example : num_repetitions_in_sentence ["This", "is", "a", "is", "a", "test", "!"] true 2 = 1 := by
  decide

example : num_repetitions_in_sentence ["a", "This", "is", "a", "test", "!", "a"] false 1 = 2 := by
  decide

example : rank [1, 7, 0, 3] 2 = [1, 3] := by decide

example : rank [5, 5] 2 = [1, 0] := by decide

end CompareMT
